import Mathlib

/-!
Verification of the gostatsd console subsystem (pkg/statsd/console.go).

The file shallowly embeds the console server: the sharded metric state, the
fan-out delete and read paths, the command table, the session loop and the
accept loop.  Concurrency (the Dispatcher fan-out, the bounded result channel
and the supervisory goroutine of printMetrics) is embedded as explicit
parameters (an arrival order of worker buffers) and, for the channel-close
ordering, as a small-step event system with an explicit step relation.

Machine integers: the delete counter is a Go uint32 incremented with
atomic.AddUint32, embedded as Nat arithmetic modulo 2 ^ 32.
-/

/-- Modelled from the spec: the gostatsd package (outside src/) defines a
collection of one metric kind as a mapping from metric identity to an
aggregated value.  Embedded as an association list from name to value. -/
abbrev AggregatedMetrics := List (String × Nat)

/-- Modelled from the spec: AggregatedMetrics.Delete removes the entry of the
given key; deleting an absent key is a no-op (a Go map delete). -/
def AggregatedMetrics.Delete (ms : AggregatedMetrics) (k : String) : AggregatedMetrics :=
  ms.filter (fun p => p.1 ≠ k)

/-- The per-shard state: four independent collections, one per metric kind
(gostatsd.MetricMap, fields Counters, Timers, Gauges, Sets). -/
structure MetricMap where
  Counters : AggregatedMetrics
  Timers : AggregatedMetrics
  Gauges : AggregatedMetrics
  Sets : AggregatedMetrics
deriving DecidableEq

/-- The four metric kinds a console command can address.  The Go code passes a
mapperFunc returning an aliased map that is then mutated in place; in the pure
embedding the delete path takes the kind and uses explicit get/set. -/
inductive MetricKind
  | counters
  | timers
  | gauges
  | sets
deriving DecidableEq

/-- Reading the collection a kind selects (the Go mapperFunc application). -/
def MetricMap.get (m : MetricMap) : MetricKind → AggregatedMetrics
  | .counters => m.Counters
  | .timers => m.Timers
  | .gauges => m.Gauges
  | .sets => m.Sets

/-- Writing back the collection a kind selects (in Go this is the in-place
mutation of the aliased map returned by the mapperFunc). -/
def MetricMap.set (m : MetricMap) : MetricKind → AggregatedMetrics → MetricMap
  | .counters, ms => { m with Counters := ms }
  | .timers, ms => { m with Timers := ms }
  | .gauges, ms => { m with Gauges := ms }
  | .sets, ms => { m with Sets := ms }

/-- The mapperFunc type of console.go (read side). -/
abbrev mapperFunc := MetricMap → AggregatedMetrics

/-- getCounters of console.go. -/
def getCounters : mapperFunc := fun m => m.Counters

/-- getSets of console.go. -/
def getSets : mapperFunc := fun m => m.Sets

/-- getGauges of console.go. -/
def getGauges : mapperFunc := fun m => m.Gauges

/-- getTimers of console.go. -/
def getTimers : mapperFunc := fun m => m.Timers

/-- uint32 modulus. -/
def u32 : Nat := 2 ^ 32

/-- The body run on one shard by ConsoleServer.delete: metrics := f(m); then
for each k of keys: metrics.Delete(k); i++ — note i is incremented for every
listed key whether or not it was present.  Returns the updated shard and the
uint32 i the worker adds to the shared counter. -/
def deleteOnShard (keys : List String) (k : MetricKind) (m : MetricMap) :
    MetricMap × Nat :=
  (m.set k (keys.foldl (fun ms key => AggregatedMetrics.Delete ms key) (m.get k)),
   keys.length % u32)

/-- ConsoleServer.delete of console.go: the Dispatcher runs the work function
exactly once per worker (spec section 4.1; the Dispatcher itself is outside
src/), each worker deletes every listed key from its own shard and adds its i
to a shared uint32 counter with atomic.AddUint32; after the wait-group the
counter is returned.  Embedded over the list of per-worker shards. -/
def ConsoleServer.delete (shards : List MetricMap) (keys : List String)
    (k : MetricKind) : Nat × List MetricMap :=
  let outs := shards.map (deleteOnShard keys k)
  (outs.foldl (fun c o => (c + o.2) % u32) 0, outs.map Prod.fst)

/-- The number of shards whose collection of kind k contains the key. -/
def shardPresence (shards : List MetricMap) (key : String) (k : MetricKind) : Nat :=
  (shards.filter (fun m => (m.get k).any (fun p => p.1 = key))).length

/-- A shard with the counter a present. -/
def shardWithA : MetricMap := ⟨[("a", 5)], [], [], []⟩

/-- A shard with the counter b present (and a absent). -/
def shardWithB : MetricMap := ⟨[("b", 3)], [], [], []⟩

theorem foldl_addmod_const (L : Nat) :
    ∀ (l : List Nat) (c : Nat), c < u32 → (∀ x ∈ l, x = L % u32) →
      l.foldl (fun c o => (c + o) % u32) c = (c + l.length * L) % u32 := by
  intro l
  induction l with
  | nil =>
    intro c hc _
    simp [Nat.mod_eq_of_lt hc]
  | cons x xs ih =>
    intro c hc hx
    have hxL : x = L % u32 := hx x (List.mem_cons_self x xs)
    have hu : 0 < u32 := by decide
    have hrest : ∀ y ∈ xs, y = L % u32 := fun y hy => hx y (List.mem_cons_of_mem x hy)
    simp only [List.foldl_cons]
    rw [ih ((c + x) % u32) (Nat.mod_lt _ hu) hrest, hxL]
    rw [Nat.mod_add_mod]
    have h1 : c + L % u32 + xs.length * L = c + xs.length * L + L % u32 := by ring
    rw [h1, Nat.add_mod_mod]
    have h2 : c + xs.length * L + L = c + (xs.length + 1) * L := by ring
    rw [h2, List.length_cons]

theorem delete_absent (key : String) :
    ∀ (keys : List String) (ms : AggregatedMetrics),
      ms.any (fun p => p.1 = key) = false →
      (keys.foldl (fun ms k => AggregatedMetrics.Delete ms k) ms).any
        (fun p => p.1 = key) = false := by
  intro keys
  induction keys with
  | nil => intro ms h; simpa using h
  | cons k ks ih =>
    intro ms h
    simp only [List.foldl_cons]
    apply ih
    simp only [AggregatedMetrics.Delete, List.any_eq_false] at h ⊢
    intro p hp
    exact h p (List.mem_of_mem_filter hp)

theorem delete_removes (key : String) :
    ∀ (keys : List String) (ms : AggregatedMetrics), key ∈ keys →
      (keys.foldl (fun ms k => AggregatedMetrics.Delete ms k) ms).any
        (fun p => p.1 = key) = false := by
  intro keys
  induction keys with
  | nil => intro ms h; cases h
  | cons k ks ih =>
    intro ms hmem
    rcases List.mem_cons.mp hmem with h | h
    · subst h
      simp only [List.foldl_cons]
      apply delete_absent
      simp [AggregatedMetrics.Delete, List.any_eq_false]
    · exact ih _ h

theorem MetricMap.get_set_same (m : MetricMap) (k : MetricKind) (ms : AggregatedMetrics) :
    (m.set k ms).get k = ms := by
  cases k <;> rfl

/-- C1 (counterexample): the claim states that a key present in exactly K of N
shards contributes exactly K to the returned count, and that delcounters a b a
with a in one shard and b in another returns 2.  On the code the count is
incremented once per listed key per shard regardless of presence: with two
shards where a lives only in the first, deleting a returns 2 although K = 1,
and the three-key example returns 6, not 2. -/
theorem C1_delete_count_counterexample :
    shardPresence [shardWithA, shardWithB] "a" MetricKind.counters = 1 ∧
    (ConsoleServer.delete [shardWithA, shardWithB] ["a"] MetricKind.counters).1 = 2 ∧
    shardPresence [shardWithA, shardWithB] "b" MetricKind.counters = 1 ∧
    (ConsoleServer.delete [shardWithA, shardWithB] ["a", "b", "a"]
      MetricKind.counters).1 = 6 := by
  decide

theorem delete_counter_foldl (keys : List String) (k : MetricKind)
    (shards : List MetricMap) :
    (shards.map (deleteOnShard keys k)).foldl (fun c o => (c + o.2) % u32) 0 =
      shards.length * keys.length % u32 := by
  have h1 : (shards.map (deleteOnShard keys k)).foldl (fun c o => (c + o.2) % u32) 0 =
      ((shards.map (deleteOnShard keys k)).map Prod.snd).foldl
        (fun c x => (c + x) % u32) 0 := by
    simp only [List.foldl_map]
  rw [h1, foldl_addmod_const keys.length _ 0 (by decide)]
  · simp
  · intro x hx
    simp only [List.map_map, List.mem_map, Function.comp] at hx
    obtain ⟨m, _, hm⟩ := hx
    simpa [deleteOnShard] using hm.symm

/-- C1 (amended): for every assignment of shard contents, every key list and
every metric kind, ConsoleServer.delete removes every listed key from the
selected collection of every shard (absent keys being silent no-ops), but the
count it returns is shards * keys modulo 2 ^ 32 — one increment per listed key
per shard, regardless of whether the key was present, so duplicates and absent
keys are counted too. -/
theorem C1_delete_count_amended (shards : List MetricMap) (keys : List String)
    (k : MetricKind) :
    (ConsoleServer.delete shards keys k).1 = shards.length * keys.length % u32 ∧
    (ConsoleServer.delete shards keys k).2.all
      (fun m => keys.all (fun key => !((m.get k).any (fun p => p.1 = key)))) = true := by
  constructor
  · exact delete_counter_foldl keys k shards
  · simp only [ConsoleServer.delete, List.map_map, List.all_eq_true]
    intro m hm
    simp only [List.mem_map, Function.comp] at hm
    obtain ⟨m0, _, hm0⟩ := hm
    intro key hkey
    rw [← hm0]
    simp only [deleteOnShard, MetricMap.get_set_same, Bool.not_eq_eq_eq_not, Bool.not_true]
    exact delete_removes key keys (m0.get k) hkey

/-- The errors with which a session command or loop can finish: the two
context errors of Go, the errClientQuit sentinel of console.go, and any other
error carrying a message. -/
inductive ConsoleError
  | canceled
  | deadlineExceeded
  | clientQuit
  | other (msg : String)
deriving DecidableEq

/-- The buffer one worker produces in ConsoleServer.printMetrics: a fresh
buffer receiving fmt.Fprintln(buf, f(m)) — the rendering of the selected
collection followed by a newline.  The rendering of AggregatedMetrics lives
outside src/, so it is a parameter. -/
def shardBuffer (render : AggregatedMetrics → String) (f : mapperFunc)
    (m : MetricMap) : String :=
  render (f m) ++ "\n"

/-- ConsoleServer.printMetrics of console.go.  Each worker renders its shard
into a private buffer and races the enqueue against ctx cancellation; a
supervisory goroutine closes the channel after the wait-group; the caller
drains the channel and concatenates in arrival order, returning a nil error.
The nondeterministic schedule is embedded as the arrival list: the worker
indices whose enqueue won the race, in arrival order (a permutation of all
workers when the context is never cancelled, a subsequence otherwise). -/
def ConsoleServer.printMetrics (render : AggregatedMetrics → String)
    (f : mapperFunc) (shards : List MetricMap) (arrival : List Nat) :
    String × Option ConsoleError :=
  (String.join (arrival.filterMap (fun i => (shards.get? i).map (shardBuffer render f))),
   none)

theorem filterMap_range_get (h : MetricMap → String) :
    ∀ (l : List MetricMap),
      (List.range l.length).filterMap (fun i => (l.get? i).map h) = l.map h := by
  intro l
  induction l with
  | nil => rfl
  | cons x xs ih =>
    rw [List.length_cons, List.range_succ_eq_map, List.filterMap_cons, List.filterMap_map]
    have hcomp : ((fun i => ((x :: xs).get? i).map h) ∘ Nat.succ) =
        (fun i => (xs.get? i).map h) := by
      funext i
      simp [List.get?_cons_succ]
    simp only [List.get?_cons_zero, hcomp, ih, List.map_cons]
    rfl

/-- C2: with N at least 1 shards and no cancellation (the arrival order is a
permutation of all worker indices), printMetrics returns, with a nil error,
the concatenation in arrival order of exactly one independently rendered
buffer per shard — none missing, none duplicated. -/
theorem C2_printMetrics_complete (render : AggregatedMetrics → String)
    (f : mapperFunc) (shards : List MetricMap) (arrival : List Nat)
    (hperm : arrival.Perm (List.range shards.length)) (_hN : 1 ≤ shards.length) :
    ∃ bufs : List String,
      (ConsoleServer.printMetrics render f shards arrival).1 = String.join bufs ∧
      bufs.Perm (shards.map (shardBuffer render f)) ∧
      (ConsoleServer.printMetrics render f shards arrival).2 = none := by
  refine ⟨arrival.filterMap (fun i => (shards.get? i).map (shardBuffer render f)),
    rfl, ?_, rfl⟩
  have h := hperm.filterMap (fun i => (shards.get? i).map (shardBuffer render f))
  rwa [filterMap_range_get] at h

/-- Witness for C2 at two concrete shards with arrival order worker 1 then
worker 0 and a concrete rendering function. -/
theorem C2_printMetrics_complete_witness :
    ([1, 0] : List Nat).Perm (List.range [shardWithA, shardWithB].length) ∧
    1 ≤ [shardWithA, shardWithB].length ∧
    ∃ bufs : List String,
      (ConsoleServer.printMetrics (fun ms => String.intercalate "," (ms.map Prod.fst))
        getCounters [shardWithA, shardWithB] [1, 0]).1 = String.join bufs ∧
      bufs.Perm ([shardWithA, shardWithB].map
        (shardBuffer (fun ms => String.intercalate "," (ms.map Prod.fst)) getCounters)) ∧
      (ConsoleServer.printMetrics (fun ms => String.intercalate "," (ms.map Prod.fst))
        getCounters [shardWithA, shardWithB] [1, 0]).2 = none :=
  ⟨by decide, by decide,
    C2_printMetrics_complete _ _ _ _ (by decide) (by decide)⟩

/-- C3: printMetrics returns a nil error for every schedule, including the
schedules where cancellation made some or all workers drop their buffer, and
with zero producing workers it returns the empty string without panicking. -/
theorem C3_printMetrics_nil_error (render : AggregatedMetrics → String)
    (f : mapperFunc) (shards : List MetricMap) (arrival : List Nat) :
    (ConsoleServer.printMetrics render f shards arrival).2 = none ∧
    ConsoleServer.printMetrics render f shards [] = ("", none) :=
  ⟨rfl, rfl⟩

/-- The phase of one producing worker of printMetrics: still running, done
having enqueued its buffer, or done having abandoned it on cancellation. -/
inductive WorkerPhase
  | pending
  | enqueued
  | abandoned
deriving DecidableEq

/-- The synchronization-relevant state of one printMetrics call: the phase of
every producing worker and whether the supervisory goroutine has closed the
results channel. -/
structure FanoutState where
  workers : List WorkerPhase
  closed : Bool
deriving DecidableEq

/-- The observable events of one printMetrics fan-out. -/
inductive FanoutEvent
  | enq (i : Nat)
  | abandon (i : Nat)
  | close
deriving DecidableEq

/-- Initial state: n pending workers, channel open. -/
def FanoutState.init (n : Nat) : FanoutState :=
  ⟨List.replicate n WorkerPhase.pending, false⟩

/-- One interleaving step of the printMetrics machinery.
enq i: worker i wins its select with the channel send (the worker never
consults the closed flag — a send on a closed channel would panic, and the
theorem shows it cannot happen from the initial state); abandon i: worker i
takes the ctx.Done branch and drops its buffer; close: the supervisory
goroutine returns from wg.Wait — which the Dispatcher completion handle (spec
section 4.1; the Dispatcher is outside src/) permits only once no worker is
still pending — and closes the channel, a close on an already-closed channel
being a panic, hence the closed = false guard. -/
inductive FanoutStep : FanoutState → FanoutEvent → FanoutState → Prop
  | enq (s : FanoutState) (i : Nat)
      (h : s.workers.get? i = some WorkerPhase.pending) :
      FanoutStep s (.enq i) ⟨s.workers.set i WorkerPhase.enqueued, s.closed⟩
  | abandon (s : FanoutState) (i : Nat)
      (h : s.workers.get? i = some WorkerPhase.pending) :
      FanoutStep s (.abandon i) ⟨s.workers.set i WorkerPhase.abandoned, s.closed⟩
  | close (s : FanoutState)
      (h1 : s.closed = false)
      (h2 : WorkerPhase.pending ∉ s.workers) :
      FanoutStep s .close ⟨s.workers, true⟩

/-- A run of the fan-out: a sequence of steps with their emitted events. -/
inductive FanoutRun : FanoutState → List FanoutEvent → FanoutState → Prop
  | nil (s : FanoutState) : FanoutRun s [] s
  | cons {s s' s'' : FanoutState} {e : FanoutEvent} {evs : List FanoutEvent} :
      FanoutStep s e s' → FanoutRun s' evs s'' → FanoutRun s (e :: evs) s''

/-- The safety invariant: once the channel is closed no worker is pending. -/
def FanoutInv (s : FanoutState) : Prop :=
  s.closed = true → WorkerPhase.pending ∉ s.workers

theorem fanoutStep_inv {s s' : FanoutState} {e : FanoutEvent}
    (hs : FanoutInv s) (hstep : FanoutStep s e s') : FanoutInv s' := by
  cases hstep with
  | enq i h =>
    intro hc
    exact absurd (List.get?_mem h) (hs hc)
  | abandon i h =>
    intro hc
    exact absurd (List.get?_mem h) (hs hc)
  | close h1 h2 =>
    intro _
    exact h2

theorem fanoutStep_not_closed {s s' : FanoutState} {e : FanoutEvent}
    (hinv : FanoutInv s) (hc : s.closed = true) : ¬ FanoutStep s e s' := by
  intro hstep
  cases hstep with
  | enq i h => exact hinv hc (List.get?_mem h)
  | abandon i h => exact hinv hc (List.get?_mem h)
  | close h1 h2 => rw [hc] at h1; simp at h1

theorem fanoutRun_inv {s s' : FanoutState} {evs : List FanoutEvent}
    (hrun : FanoutRun s evs s') : FanoutInv s → FanoutInv s' := by
  induction hrun with
  | nil => exact id
  | cons hstep _ ih => exact fun hs => ih (fanoutStep_inv hs hstep)

theorem fanoutRun_closed_nil {s s' : FanoutState} {evs : List FanoutEvent}
    (hrun : FanoutRun s evs s') (hinv : FanoutInv s) (hc : s.closed = true) :
    evs = [] := by
  cases hrun with
  | nil => rfl
  | cons hstep _ => exact absurd hstep (fanoutStep_not_closed hinv hc)

theorem fanoutRun_close_last {s s' : FanoutState} {evs : List FanoutEvent}
    (hrun : FanoutRun s evs s') :
    FanoutInv s → ∀ l₁ l₂, evs = l₁ ++ FanoutEvent.close :: l₂ → l₂ = [] := by
  induction hrun with
  | nil =>
    intro _ l₁ l₂ h
    exact absurd h.symm (List.append_ne_nil_of_right_ne_nil l₁ (List.cons_ne_nil _ _))
  | cons hstep hrest ih =>
    intro hinv l₁ l₂ heq
    cases l₁ with
    | nil =>
      simp only [List.nil_append, List.cons.injEq] at heq
      obtain ⟨he, hevs⟩ := heq
      subst he
      cases hstep with
      | close h1 h2 =>
        have hnil := fanoutRun_closed_nil hrest (fun _ => h2) rfl
        rw [← hevs, hnil]
    | cons a l₁ =>
      simp only [List.cons_append, List.cons.injEq] at heq
      exact ih (fanoutStep_inv hinv hstep) l₁ l₂ heq.2

theorem fanoutRun_close_once {s s' : FanoutState} {evs : List FanoutEvent}
    (hrun : FanoutRun s evs s') :
    FanoutInv s → evs.count FanoutEvent.close ≤ 1 := by
  induction hrun with
  | nil => intro _; simp
  | cons hstep hrest ih =>
    intro hinv
    rename_i e evs'
    by_cases he : e = FanoutEvent.close
    · subst he
      cases hstep with
      | close h1 h2 =>
        have hnil := fanoutRun_closed_nil hrest (fun _ => h2) rfl
        subst hnil
        simp
    · have hle := ih (fanoutStep_inv hinv hstep)
      simp only [List.count_cons, beq_iff_eq, if_neg he, Nat.add_zero]
      exact hle

/-- C8: in every run of the printMetrics fan-out from the initial state, the
result channel is closed at most once (a single supervisory close event), the
close can only happen once no producing worker is still pending (every worker
has enqueued or abandoned its buffer), and nothing — in particular no producer
send — can follow the close event. -/
theorem C8_channel_close_barrier (n : Nat) (evs : List FanoutEvent)
    (s : FanoutState) (hrun : FanoutRun (FanoutState.init n) evs s) :
    (s.closed = true → WorkerPhase.pending ∉ s.workers) ∧
    (∀ l₁ l₂, evs = l₁ ++ FanoutEvent.close :: l₂ → l₂ = []) ∧
    evs.count FanoutEvent.close ≤ 1 := by
  have hinv : FanoutInv (FanoutState.init n) := by
    intro hc
    simp [FanoutState.init] at hc
  exact ⟨fanoutRun_inv hrun hinv, fanoutRun_close_last hrun hinv,
    fanoutRun_close_once hrun hinv⟩

/-- Witness for C8: a concrete two-worker run in which worker 0 enqueues,
worker 1 abandons on cancellation, and the supervisor then closes. -/
theorem C8_channel_close_barrier_witness :
    FanoutRun (FanoutState.init 2)
      [FanoutEvent.enq 0, FanoutEvent.abandon 1, FanoutEvent.close]
      ⟨[WorkerPhase.enqueued, WorkerPhase.abandoned], true⟩ ∧
    ((FanoutState.mk [WorkerPhase.enqueued, WorkerPhase.abandoned] true).closed = true →
      WorkerPhase.pending ∉
        (FanoutState.mk [WorkerPhase.enqueued, WorkerPhase.abandoned] true).workers) ∧
    (∀ l₁ l₂, [FanoutEvent.enq 0, FanoutEvent.abandon 1, FanoutEvent.close] =
      l₁ ++ FanoutEvent.close :: l₂ → l₂ = []) ∧
    List.count FanoutEvent.close
      [FanoutEvent.enq 0, FanoutEvent.abandon 1, FanoutEvent.close] ≤ 1 := by
  have hrun : FanoutRun (FanoutState.init 2)
      [FanoutEvent.enq 0, FanoutEvent.abandon 1, FanoutEvent.close]
      ⟨[WorkerPhase.enqueued, WorkerPhase.abandoned], true⟩ :=
    FanoutRun.cons (FanoutStep.enq _ 0 rfl)
      (FanoutRun.cons (FanoutStep.abandon _ 1 rfl)
        (FanoutRun.cons (FanoutStep.close _ rfl (by decide))
          (FanoutRun.nil _)))
  exact ⟨hrun, C8_channel_close_barrier 2 _ _ hrun⟩

/-- ReceiverStats snapshot (the Receiver collaborator, outside src/): the
fields console.go reads for the stats command.  The timestamp is rendered with
the v verb of fmt and is embedded as an already-rendered string. -/
structure ReceiverStats where
  BadLines : Nat
  MetricsReceived : Nat
  PacketsReceived : Nat
  LastPacket : String
deriving DecidableEq

/-- FlusherStats snapshot (the Flusher collaborator, outside src/). -/
structure FlusherStats where
  LastFlush : String
  LastFlushError : String
deriving DecidableEq

/-- The data a console session reads and mutates, together with the oracles
the pure embedding needs: the rendering of a collection (it lives outside
src/) and the arrival schedule of the printMetrics fan-out (the
nondeterministic interleaving of the worker enqueues). -/
structure ServerState where
  shards : List MetricMap
  receiverStats : ReceiverStats
  flusherStats : FlusherStats
  render : AggregatedMetrics → String
  sched : List Nat

/-- cmd.CmdFn of the session library: arguments in, response text, error and
updated server state out. -/
abbrev CmdFn := List String → ServerState → String × Option ConsoleError × ServerState

/-- The response of the stats command (the fmt.Sprintf of console.go). -/
def statsResponse (st : ServerState) : String :=
  "Invalid messages received: " ++ toString st.receiverStats.BadLines ++ "\n" ++
  "Metrics received: " ++ toString st.receiverStats.MetricsReceived ++ "\n" ++
  "Packets received: " ++ toString st.receiverStats.PacketsReceived ++ "\n" ++
  "Last packet received: " ++ st.receiverStats.LastPacket ++ "\n" ++
  "Last flush to backends: " ++ st.flusherStats.LastFlush ++ "\n" ++
  "Last error from backends: " ++ st.flusherStats.LastFlushError ++ "\n"

/-- One metric-listing command (counters, timers, gauges, sets): printMetrics
over the matching mapperFunc; the state is not changed. -/
def printCommand (f : mapperFunc) : CmdFn := fun _ st =>
  let r := ConsoleServer.printMetrics st.render f st.shards st.sched
  (r.1, r.2, st)

/-- One delete command (delcounters, deltimers, delgauges, delsets): the
fan-out delete over the matching kind and the Sprintf deleted-count
response, fmtTail being the format text after the count verb. -/
def delCommand (kind : MetricKind) (fmtTail : String) : CmdFn := fun args st =>
  let r := ConsoleServer.delete st.shards args kind
  ("deleted " ++ toString r.1 ++ fmtTail, none,
   { st with shards := r.2 })

/-- The command table built in ConsoleServer.Serve, one entry per command
name; an unknown name resolves to none. -/
def commands : String → Option CmdFn
  | "help" => some fun _ st =>
      ("Commands: stats, counters, timers, gauges, delcounters, deltimers, delgauges, quit\n",
       none, st)
  | "stats" => some fun _ st => (statsResponse st, none, st)
  | "counters" => some (printCommand getCounters)
  | "timers" => some (printCommand getTimers)
  | "gauges" => some (printCommand getGauges)
  | "sets" => some (printCommand getSets)
  | "delcounters" => some (delCommand MetricKind.counters " counters\n")
  | "deltimers" => some (delCommand MetricKind.timers " timers\n")
  | "delgauges" => some (delCommand MetricKind.gauges " gauges\n")
  | "delsets" => some (delCommand MetricKind.sets " sets\n")
  | "quit" => some fun _ st => ("goodbye\n", some ConsoleError.clientQuit, st)
  | _ => none

/-- Resolving and running one command against the table. -/
def runCommand (name : String) (args : List String) (st : ServerState) :
    Option (String × Option ConsoleError × ServerState) :=
  (commands name).map (fun fn => fn args st)

def fieldsAux : List Char → List Char → List String
  | [], acc => if acc.isEmpty then [] else [String.mk acc.reverse]
  | c :: cs, acc =>
      if c = ' ' then
        if acc.isEmpty then fieldsAux cs []
        else String.mk acc.reverse :: fieldsAux cs []
      else fieldsAux cs (c :: acc)

/-- Modelled from the spec: the session library splits each input line into
whitespace-delimited tokens; the first token names the command and the rest
are its arguments. -/
def tokenize (line : String) : List String := fieldsAux line.toList []

/-- Modelled from the spec: the session command loop of the cmd library
(outside src/), section 4.4 of the spec.  A blank line produces no output; an
unknown command reports an error line and continues; a command returning an
error ends the loop after its response is written, leaving the remaining
input unprocessed.  Returns the written responses, the terminating error (none
when the input ran out) and the final server state. -/
def sessionLoop : List String → ServerState → List String × Option ConsoleError × ServerState
  | [], st => ([], none, st)
  | line :: rest, st =>
    match tokenize line with
    | [] => sessionLoop rest st
    | name :: args =>
      match commands name with
      | none =>
        let r := sessionLoop rest st
        (("unknown command: " ++ name ++ "\n") :: r.1, r.2.1, r.2.2)
      | some fn =>
        let c := fn args st
        match c.2.1 with
        | some e => ([c.1], some e, c.2.2)
        | none =>
          let r := sessionLoop rest c.2.2
          (c.1 :: r.1, r.2.1, r.2.2)

/-- The error filter of serveConnection (console.go): the loop error is logged
unless it is nil, context.Canceled, context.DeadlineExceeded or
errClientQuit. -/
def shouldLogConsoleError : Option ConsoleError → Bool
  | none => false
  | some ConsoleError.canceled => false
  | some ConsoleError.deadlineExceeded => false
  | some ConsoleError.clientQuit => false
  | some (ConsoleError.other _) => true

/-- What one connection observes when serveConnection returns. -/
structure ConnResult where
  closed : Bool
  logged : Bool
  responses : List String

/-- ConsoleServer.serveConnection of console.go: run the session loop on the
connection, log the terminating error unless it is one of the three normal
terminations, and always close the connection (the deferred conn.Close). -/
def ConsoleServer.serveConnection (lines : List String) (st : ServerState) :
    ConnResult :=
  let r := sessionLoop lines st
  { closed := true, logged := shouldLogConsoleError r.2.1, responses := r.1 }

/-- The accept loop of ConsoleServer.Serve: accept; on accept error return it
to the caller; otherwise spawn serveConnection on the connection and loop.
The ctx parameter is carried exactly as in the source, which never consults it
in the loop; the listener is embedded as the list of its accept outcomes, and
a none result means the loop is still running when the outcomes run out. -/
def ConsoleServer.Serve {Ctx Conn E : Type} (ctx : Ctx) :
    List (Except E Conn) → Option E
  | [] => none
  | Except.error e :: _ => some e
  | Except.ok _ :: rest => ConsoleServer.Serve ctx rest

/-- The first accept error of the listener, if any. -/
def firstAcceptError {Conn E : Type} : List (Except E Conn) → Option E
  | [] => none
  | Except.error e :: _ => some e
  | Except.ok _ :: rest => firstAcceptError rest

/-- DefaultConsoleAddr of console.go. -/
def DefaultConsoleAddr : String := ":8126"

/-- The address resolution of ListenAndServe: the configured Addr, or
DefaultConsoleAddr when Addr is the empty string. -/
def resolveAddr (Addr : String) : String :=
  if Addr = "" then DefaultConsoleAddr else Addr

/-- ConsoleServer.ListenAndServe of console.go: resolve the address, call
net.Listen (embedded as the listen oracle), return a listen error directly,
and otherwise hand the listener to Serve (embedded as the serve argument). -/
def ConsoleServer.ListenAndServe {L E : Type} (Addr : String)
    (listen : String → Except E L) (serve : L → Option E) : Option E :=
  match listen (resolveAddr Addr) with
  | Except.error e => some e
  | Except.ok l => serve l

/-- C4: the quit command responds with the farewell line together with the
errClientQuit sentinel; that error ends the session loop immediately — the
remaining input is never processed and the state is untouched — it is not
logged as a problem, and the connection is closed. -/
theorem C4_quit_ends_session (rest : List String) (st : ServerState) :
    runCommand "quit" [] st = some ("goodbye\n", some ConsoleError.clientQuit, st) ∧
    sessionLoop ("quit" :: rest) st = (["goodbye\n"], some ConsoleError.clientQuit, st) ∧
    shouldLogConsoleError (some ConsoleError.clientQuit) = false ∧
    (ConsoleServer.serveConnection ("quit" :: rest) st).closed = true ∧
    (ConsoleServer.serveConnection ("quit" :: rest) st).logged = false ∧
    (ConsoleServer.serveConnection ("quit" :: rest) st).responses = ["goodbye\n"] :=
  ⟨rfl, rfl, rfl, rfl, rfl, rfl⟩

/-- C5: of the errors a session loop can terminate with, cancellation and
deadline expiry are never logged, the quit sentinel is not logged, and every
other error is logged; the connection is always closed, and an accepted
connection never terminates the accept loop — only that session ends. -/
theorem C5_session_error_classification (msg : String) (lines : List String)
    (st : ServerState) {Ctx Conn E : Type} (ctx : Ctx) (c : Conn)
    (accepts : List (Except E Conn)) :
    shouldLogConsoleError (some ConsoleError.canceled) = false ∧
    shouldLogConsoleError (some ConsoleError.deadlineExceeded) = false ∧
    shouldLogConsoleError (some ConsoleError.clientQuit) = false ∧
    shouldLogConsoleError none = false ∧
    shouldLogConsoleError (some (ConsoleError.other msg)) = true ∧
    (ConsoleServer.serveConnection lines st).closed = true ∧
    ConsoleServer.Serve ctx (Except.ok c :: accepts) = ConsoleServer.Serve ctx accepts :=
  ⟨rfl, rfl, rfl, rfl, rfl, rfl, rfl⟩

/-- C6: ListenAndServe resolves the empty address to the default :8126 and a
non-empty Addr to itself; when the listen call fails its error is returned
directly, and the serve stage is never consulted (two arbitrary serve
continuations give the same result). -/
theorem C6_listen_error_returned {L E : Type} (Addr : String)
    (listen : String → Except E L) (serve₁ serve₂ : L → Option E) (e : E)
    (herr : listen (resolveAddr Addr) = Except.error e) :
    resolveAddr "" = ":8126" ∧
    (Addr ≠ "" → resolveAddr Addr = Addr) ∧
    ConsoleServer.ListenAndServe Addr listen serve₁ = some e ∧
    ConsoleServer.ListenAndServe Addr listen serve₁ =
      ConsoleServer.ListenAndServe Addr listen serve₂ := by
  refine ⟨rfl, fun h => if_neg h, ?_, ?_⟩
  · simp only [ConsoleServer.ListenAndServe, herr]
  · simp only [ConsoleServer.ListenAndServe, herr]

/-- A listen oracle that always fails, for the C6 witness. -/
def failingListen : String → Except String Unit :=
  fun _ => Except.error "listen failure"

/-- A serve continuation returning no error, for the C6 witness. -/
def serveOutcomeA : Unit → Option String := fun _ => none

/-- A serve continuation returning an error, for the C6 witness. -/
def serveOutcomeB : Unit → Option String := fun _ => some "other"

/-- Witness for C6 at a concrete failing listen oracle and empty Addr. -/
theorem C6_listen_error_returned_witness :
    failingListen (resolveAddr "") = Except.error "listen failure" ∧
    (resolveAddr "" = ":8126" ∧
     ("" ≠ "" → resolveAddr "" = "") ∧
     ConsoleServer.ListenAndServe "" failingListen serveOutcomeA =
       some "listen failure" ∧
     ConsoleServer.ListenAndServe "" failingListen serveOutcomeA =
       ConsoleServer.ListenAndServe "" failingListen serveOutcomeB) :=
  ⟨rfl, C6_listen_error_returned "" failingListen serveOutcomeA serveOutcomeB
    "listen failure" rfl⟩

/-- C7: each delete command responds exactly with the line deleted N kind
followed by a newline, where kind names the command's metric kind and N is the
count ConsoleServer.delete returned, with a nil error (the state carrying the
updated shards). -/
theorem C7_delete_response_format (args : List String) (st : ServerState) :
    runCommand "delcounters" args st = some
      ("deleted " ++ toString (ConsoleServer.delete st.shards args MetricKind.counters).1
        ++ " counters\n", none,
       { st with shards := (ConsoleServer.delete st.shards args MetricKind.counters).2 }) ∧
    runCommand "deltimers" args st = some
      ("deleted " ++ toString (ConsoleServer.delete st.shards args MetricKind.timers).1
        ++ " timers\n", none,
       { st with shards := (ConsoleServer.delete st.shards args MetricKind.timers).2 }) ∧
    runCommand "delgauges" args st = some
      ("deleted " ++ toString (ConsoleServer.delete st.shards args MetricKind.gauges).1
        ++ " gauges\n", none,
       { st with shards := (ConsoleServer.delete st.shards args MetricKind.gauges).2 }) ∧
    runCommand "delsets" args st = some
      ("deleted " ++ toString (ConsoleServer.delete st.shards args MetricKind.sets).1
        ++ " sets\n", none,
       { st with shards := (ConsoleServer.delete st.shards args MetricKind.sets).2 }) :=
  ⟨rfl, rfl, rfl, rfl⟩

/-- The eight command names the help response lists. -/
def helpListed : List String :=
  ["stats", "counters", "timers", "gauges", "delcounters", "deltimers", "delgauges", "quit"]

/-- C9: the help response lists exactly the eight commands stats, counters,
timers, gauges, delcounters, deltimers, delgauges and quit, omitting sets and
delsets, although both resolve to registered commands of the same table. -/
theorem C9_help_omits_sets (st : ServerState) :
    runCommand "help" [] st = some
      ("Commands: " ++ String.intercalate ", " helpListed ++ "\n", none, st) ∧
    "sets" ∉ helpListed ∧
    "delsets" ∉ helpListed ∧
    (commands "sets").isSome = true ∧
    (commands "delsets").isSome = true := by
  have h : "Commands: " ++ String.intercalate ", " helpListed ++ "\n" =
      "Commands: stats, counters, timers, gauges, delcounters, deltimers, delgauges, quit\n" := by
    decide
  refine ⟨?_, by decide, by decide, rfl, rfl⟩
  rw [h]
  rfl

/-- C10: the accept loop never consults its context — two arbitrary contexts
give identical results — and Serve returns exactly when Accept first returns
an error, which it hands to its caller; cancelling the context neither stops
the listener nor makes Serve return. -/
theorem C10_serve_ignores_context {Ctx Conn E : Type} (ctx ctx' : Ctx)
    (accepts : List (Except E Conn)) :
    ConsoleServer.Serve ctx accepts = ConsoleServer.Serve ctx' accepts ∧
    ConsoleServer.Serve ctx accepts = firstAcceptError accepts ∧
    ((ConsoleServer.Serve ctx accepts).isSome = true ↔
      ∃ e, Except.error e ∈ accepts) := by
  induction accepts with
  | nil =>
    refine ⟨rfl, rfl, ?_⟩
    simp [ConsoleServer.Serve]
  | cons a rest ih =>
    cases a with
    | error e =>
      refine ⟨rfl, rfl, ?_⟩
      simp [ConsoleServer.Serve]
    | ok c =>
      refine ⟨ih.1, ih.2.1, ?_⟩
      have h3 := ih.2.2
      constructor
      · intro hs
        obtain ⟨e, he⟩ := h3.mp hs
        exact ⟨e, List.mem_cons_of_mem _ he⟩
      · intro hex
        obtain ⟨e, he⟩ := hex
        rcases List.mem_cons.mp he with h | h
        · cases h
        · exact h3.mpr ⟨e, h⟩
